import Mathlib

/-!
Verification of the keyword-driven collection pipeline of the
Content-Monitoring repository (`src/collect/collect_posts.py`,
`src/collect/main.py`, `src/collect/posts_db.py`,
`src/db/postgresql_connector.py`).

The Python code is shallowly embedded: pure computations become Lean
functions, database/network effects become explicit oracle parameters
(`Except Unit _` outcomes for calls that may raise), and the PostgreSQL
tables become record types over lists.
-/

namespace ContentMonitoring

/-! ## Pattern matcher

`collect_posts.py` line 72:
`pattern = re.compile(rf"\b{re.escape(target_keyword)}\b", re.IGNORECASE)`
and lines 97-100: `text = getattr(post.record, "text", "").lower()` then
`pattern.search(text)`.

`lowerChar` models `str.lower` / `re.IGNORECASE` case folding on the
ASCII range, and `isWordChar` models the regex word class `\w` on the
ASCII range (`[a-zA-Z0-9_]`).  `re.escape` makes the keyword match
literally, which is how the keyword is treated below.
-/

def lowerChar (c : Char) : Char :=
  if c == 'A' then 'a' else if c == 'B' then 'b' else if c == 'C' then 'c'
  else if c == 'D' then 'd' else if c == 'E' then 'e' else if c == 'F' then 'f'
  else if c == 'G' then 'g' else if c == 'H' then 'h' else if c == 'I' then 'i'
  else if c == 'J' then 'j' else if c == 'K' then 'k' else if c == 'L' then 'l'
  else if c == 'M' then 'm' else if c == 'N' then 'n' else if c == 'O' then 'o'
  else if c == 'P' then 'p' else if c == 'Q' then 'q' else if c == 'R' then 'r'
  else if c == 'S' then 's' else if c == 'T' then 't' else if c == 'U' then 'u'
  else if c == 'V' then 'v' else if c == 'W' then 'w' else if c == 'X' then 'x'
  else if c == 'Y' then 'y' else if c == 'Z' then 'z' else c

def lowerStr (s : String) : String :=
  String.mk (s.data.map lowerChar)

def isWordChar (c : Char) : Bool :=
  c.isAlphanum || c == '_'

/-- Wordness of the character just before a cut point (`false` past the ends),
as used by the regex word-boundary assertion `\b`. -/
def lastW (l : List Char) : Bool :=
  (l.getLast?.map isWordChar).getD false

/-- Wordness of the character just after a cut point (`false` past the ends). -/
def headW (l : List Char) : Bool :=
  (l.head?.map isWordChar).getD false

/-- The regex `\b` assertion at position `i` of `t`: the wordness of the
characters on the two sides of the cut differs. -/
def bdry (t : List Char) (i : Nat) : Bool :=
  lastW (t.take i) != headW (t.drop i)

/-- One attempt of `re.search` for the pattern `\b<literal keyword>\b` with
`re.IGNORECASE` at start position `i`. -/
def wwMatchAt (t k : List Char) (i : Nat) : Bool :=
  decide (i + k.length ≤ t.length) &&
    (((t.drop i).take k.length).map lowerChar == k.map lowerChar) &&
    bdry t i && bdry t (i + k.length)

/-- `re.search` tries every start position left to right. -/
def reSearch (t k : List Char) : Bool :=
  (List.range (t.length + 1)).any (wwMatchAt t k)

/-- The pattern matcher as applied in `collect_posts.py`: the text is
lowercased (line 97) and searched with the case-insensitive whole-word
pattern built on line 72. -/
def matchesKeyword (text kw : String) : Bool :=
  reSearch (text.data.map lowerChar) kw.data

/-- Modelled from the spec's words (section 4.1 / testable properties):
the keyword occurs in the text, up to letter case, with a word boundary
on each side.  Used only to compare against `matchesKeyword`. -/
def specMatches (text kw : String) : Prop :=
  ∃ pre mid post : List Char,
    text.data = pre ++ mid ++ post ∧
    mid.map lowerChar = kw.data.map lowerChar ∧
    lastW pre ≠ headW (mid ++ post) ∧
    lastW (pre ++ mid) ≠ headW post

/-! ## Keyword fetch cycle (`collect_posts.py`, `collect_bluesky_posts`)

The Bluesky client and the PostgreSQL connection are external
collaborators; they enter the model as oracle parameters.  `db` is the
outcome of the ledger/keyword reads at the top of the function (those
reads sit *outside* the `try`, so a raised exception there propagates to
the caller).  `api` maps the request cursor to the outcome of
`client.app.bsky.feed.search_posts`.
-/

/-- A `PostView` of the remote search response, with the attributes the
code reads via `getattr` (absent attributes are `none`). -/
structure PostView where
  uri : String
  text : Option String
  createdAt : Option String
  likeCount : Option Int
  replyCount : Option Int
  quoteCount : Option Int
  repostCount : Option Int
  labels : List String
  embed : Option String
deriving DecidableEq

/-- The dictionary appended to `matched_posts` in `collect_posts.py`
lines 101-117. -/
structure MatchedPost where
  external_id : String
  content : String
  created_at : Option String
  like_count : Int
  reply_count : Int
  quote_count : Int
  repost_count : Int
  labels : List String
  embed : Option String
  language : String
  keyword_ids : List Nat
deriving DecidableEq

def mkMatched (kwId : Nat) (lang : String) (p : PostView) : MatchedPost :=
  { external_id := p.uri
    content := lowerStr (p.text.getD "")
    created_at := p.createdAt
    like_count := p.likeCount.getD 0
    reply_count := p.replyCount.getD 0
    quote_count := p.quoteCount.getD 0
    repost_count := p.repostCount.getD 0
    labels := p.labels
    embed := p.embed
    language := lang
    keyword_ids := [kwId] }

/-- The `for post in posts_found` loop of `collect_posts.py` lines 88-117:
`seen` is the in-memory `scanned_ids_set`; returns
`(matched_posts, scanned_batch_ids)` in order of first appearance. -/
def processPage (kw : String) (kwId : Nat) (lang : String) :
    List String → List PostView → List MatchedPost × List String
  | _, [] => ([], [])
  | seen, p :: rest =>
    if p.uri ∈ seen then processPage kw kwId lang seen rest
    else
      let ms := processPage kw kwId lang (p.uri :: seen) rest
      if matchesKeyword (p.text.getD "") kw then
        (mkMatched kwId lang p :: ms.1, p.uri :: ms.2)
      else (ms.1, p.uri :: ms.2)

/-- The two reads performed at the top of `collect_bluesky_posts`:
`SELECT external_id FROM bluesky.scanned_posts` and
`SELECT id, language FROM bluesky.keywords WHERE keyword = %s`. -/
structure LedgerView where
  scanned : List String
  kwRow : Option (Nat × String)
deriving DecidableEq

/-- Response of `client.app.bsky.feed.search_posts`. -/
structure SearchResponse where
  posts : List PostView
  cursor : Option String
deriving DecidableEq

deriving instance DecidableEq for Except

/-- `result` is `.error _` when the call raises to its caller; `apiCalled`
records whether the remote search request was issued. -/
structure CollectResult where
  result : Except Unit (List MatchedPost × List String × Option String)
  apiCalled : Bool
deriving DecidableEq

def collect_bluesky_posts (db : Except Unit LedgerView)
    (api : Option String → Except Unit SearchResponse)
    (target_keyword : String) (cursor : Option String) : CollectResult :=
  match db with
  | .error e => ⟨.error e, false⟩
  | .ok lv =>
    match lv.kwRow with
    | none => ⟨.ok ([], [], none), false⟩
    | some (kwId, lang) =>
      match api cursor with
      | .error _ => ⟨.ok ([], [], none), true⟩
      | .ok res =>
        let ms := processPage target_keyword kwId lang lv.scanned res.posts
        ⟨.ok (ms.1, ms.2, res.cursor), true⟩

/-! ## Post persistence (`posts_db.py`, `insert_posts_to_db`)

The `bluesky.posts` and `bluesky.post_keywords` tables are modelled as
lists; `json.dumps` of the already string-shaped `labels`/`embed`
payloads is modelled as the identity on that representation.  `connFails`
is the outcome of `get_connection()` (`postgresql_connector.py`); when it
raises, the `except` handler evaluates `if conn:` with `conn` never
bound, so an `UnboundLocalError` escapes to the caller — the second
component of the result records that propagation.  `failAt` names the
index of the post (if any) whose serialization or SQL raises inside the
transaction.  `main.py` always calls with `commit=True`, which is the
path modelled here. -/

structure StoredPost where
  external_id : String
  content : String
  language : String
  created_at : Option String
  like_count : Int
  reply_count : Int
  quote_count : Int
  repost_count : Int
  labels : List String
  embed : Option String
deriving DecidableEq

structure PostsDB where
  rows : List (Nat × StoredPost)
  assoc : List (Nat × Nat)
  nextId : Nat
deriving DecidableEq

def toStored (p : MatchedPost) : StoredPost :=
  { external_id := p.external_id
    content := p.content
    language := p.language
    created_at := p.created_at
    like_count := p.like_count
    reply_count := p.reply_count
    quote_count := p.quote_count
    repost_count := p.repost_count
    labels := p.labels
    embed := p.embed }

def findRow (rows : List (Nat × StoredPost)) (eid : String) :
    Option (Nat × StoredPost) :=
  rows.find? (fun r => r.2.external_id == eid)

/-- `INSERT INTO bluesky.post_keywords ... ON CONFLICT DO NOTHING`,
once per `keyword_id` of the post. -/
def insertAssocs (assoc : List (Nat × Nat)) (pid : Nat) (kids : List Nat) :
    List (Nat × Nat) :=
  kids.foldl (fun a kid => if (pid, kid) ∈ a then a else a ++ [(pid, kid)]) assoc

/-- One post of the batch: upsert on `external_id` (`ON CONFLICT
(external_id) DO UPDATE SET ...`, last write wins, internal id kept),
`RETURNING id`, then the keyword associations. -/
def applyPost (db : PostsDB) (p : MatchedPost) : PostsDB :=
  match findRow db.rows p.external_id with
  | some (pid, _) =>
    { rows := db.rows.map
        (fun r => if r.2.external_id == p.external_id then (r.1, toStored p) else r)
      assoc := insertAssocs db.assoc pid p.keyword_ids
      nextId := db.nextId }
  | none =>
    { rows := db.rows ++ [(db.nextId, toStored p)]
      assoc := insertAssocs db.assoc db.nextId p.keyword_ids
      nextId := db.nextId + 1 }

/-- The whole batch applied without failure. -/
def applyBatch (db : PostsDB) (posts : List MatchedPost) : PostsDB :=
  posts.foldl applyPost db

/-- The `for post in posts` loop inside the transaction; processing of
post number `failAt` (serialization or SQL) raises. -/
def writeBatchAux (db : PostsDB) (posts : List MatchedPost)
    (failAt : Option Nat) (i : Nat) : Except Unit PostsDB :=
  match posts with
  | [] => .ok db
  | p :: rest =>
    if failAt = some i then .error ()
    else writeBatchAux (applyPost db p) rest failAt (i + 1)

def insert_posts_to_db (db : PostsDB) (posts : List MatchedPost)
    (connFails : Bool) (failAt : Option Nat) : PostsDB × Bool :=
  if posts.isEmpty then (db, false)
  else if connFails then (db, true)
  else
    match writeBatchAux db posts failAt 0 with
    | .ok db' => (db', false)
    | .error _ => (db, false)

def storedIds (db : PostsDB) : List String :=
  db.rows.map (fun r => r.2.external_id)

/-! ## Collection orchestrator (`main.py`, `main`)

One keyword's page loop (`for _page in range(10)`), with the body's
observable outcome per page abstracted by `PageOutcome`:
`fetchFail` — `collect_bluesky_posts` propagated a ledger/database error;
`scanFail` — the `INSERT INTO bluesky.scanned_posts` block raised (its
transaction rolled back before committing); `ok d` — the fetch returned
`(d.matched, d.scanned, d.next)` and the scanned-id insert committed,
with `d.dbConnFails`/`d.dbFailAt` feeding `insert_posts_to_db`.  The
`try/except` around the page body turns any propagated exception into
`break`. -/

structure OrchState where
  postsDB : PostsDB
  ledger : List String
deriving DecidableEq

structure PageData where
  matched : List MatchedPost
  scanned : List String
  next : Option String
  dbConnFails : Bool
  dbFailAt : Option Nat
deriving DecidableEq

inductive PageOutcome where
  | fetchFail : PageOutcome
  | scanFail : PageData → PageOutcome
  | ok : PageData → PageOutcome
deriving DecidableEq

/-- `INSERT INTO bluesky.scanned_posts (external_id) VALUES (%s)
ON CONFLICT DO NOTHING`, one row per id. -/
def insertScanned (led : List String) (ids : List String) : List String :=
  ids.foldl (fun L i => if i ∈ L then L else L ++ [i]) led

/-- One iteration of the page loop.  The second component is `none` when
the iteration breaks (exception caught by `except ... break`, or the
batch insert propagated), and `some next` when the loop proceeds to the
cursor check with `current_cursor = next`. -/
def pageStep (st : OrchState) (o : PageOutcome) : OrchState × Option (Option String) :=
  match o with
  | .fetchFail => (st, none)
  | .scanFail _ => (st, none)
  | .ok d =>
    let led := if d.scanned.isEmpty then st.ledger else insertScanned st.ledger d.scanned
    if d.matched.isEmpty then (⟨st.postsDB, led⟩, some d.next)
    else
      let r := insert_posts_to_db st.postsDB d.matched d.dbConnFails d.dbFailAt
      if r.2 then (⟨r.1, led⟩, none) else (⟨r.1, led⟩, some d.next)

/-- The `for _page in range(10)` loop from page number `page` with `fuel`
iterations left; also counts how many times the fetch cycle was invoked. -/
def runPages (oracle : Nat → PageOutcome) (page fuel : Nat) (st : OrchState) :
    OrchState × Nat :=
  match fuel with
  | 0 => (st, 0)
  | f + 1 =>
    match pageStep st (oracle page) with
    | (st', none) => (st', 1)
    | (st', some next) =>
      match next with
      | none => (st', 1)
      | some _ =>
        let r := runPages oracle (page + 1) f st'
        (r.1, r.2 + 1)

/-- The `for kw in all_keywords` loop of `main`. -/
def runMain (oracle : String → Nat → PageOutcome) (kws : List String)
    (st : OrchState) : OrchState :=
  kws.foldl (fun s kw => (runPages (oracle kw) 0 10 s).1) st

/-- The page outcomes after which the loop advances to the next page:
the body completed without breaking and the fetch returned a cursor. -/
def continuesTo (o : PageOutcome) : Bool :=
  match o with
  | .ok d => d.next.isSome && (d.matched.isEmpty || !d.dbConnFails)
  | _ => false

/-- The page outcomes in which an exception surfaces while processing the
page (so the `except` clause runs `break`). -/
def breaksAt (o : PageOutcome) : Bool :=
  match o with
  | .fetchFail => true
  | .scanFail _ => true
  | .ok d => !d.matched.isEmpty && d.dbConnFails

/-! ## Concrete fixtures, used to instantiate the theorems below. -/

def emptyDB : PostsDB := ⟨[], [], 0⟩

def emptyState : OrchState := ⟨emptyDB, []⟩

def sampleView : PostView :=
  { uri := "at://p1", text := some "Modern ART is great", createdAt := none
    likeCount := none, replyCount := none, quoteCount := none
    repostCount := none, labels := [], embed := none }

def oldView : PostView :=
  { uri := "at://old", text := some "modern art again", createdAt := none
    likeCount := none, replyCount := none, quoteCount := none
    repostCount := none, labels := [], embed := none }

def sampleApi : Option String → Except Unit SearchResponse :=
  fun _ => .ok ⟨[sampleView, oldView], some "cur2"⟩

def samplePost : MatchedPost := mkMatched 1 "en" sampleView

def samplePage : PageData :=
  ⟨[samplePost], ["at://p1"], some "c1", false, none⟩

def quietPage : PageData := ⟨[], [], none, false, none⟩

def cursorOracle : Nat → PageOutcome :=
  fun n => if n < 2 then .ok ⟨[], ["s"], some "c", false, none⟩
           else .ok ⟨[], [], none, false, none⟩

def failureOracle : String → Nat → PageOutcome :=
  fun kw n =>
    if kw = "bulgaria" then (if n = 0 then .ok samplePage else .fetchFail)
    else .ok quietPage

end ContentMonitoring

namespace ContentMonitoring

theorem lowerChar_idem (c : Char) : lowerChar (lowerChar c) = lowerChar c := by
  by_cases h1 : c = 'A'; · subst h1; decide
  by_cases h2 : c = 'B'; · subst h2; decide
  by_cases h3 : c = 'C'; · subst h3; decide
  by_cases h4 : c = 'D'; · subst h4; decide
  by_cases h5 : c = 'E'; · subst h5; decide
  by_cases h6 : c = 'F'; · subst h6; decide
  by_cases h7 : c = 'G'; · subst h7; decide
  by_cases h8 : c = 'H'; · subst h8; decide
  by_cases h9 : c = 'I'; · subst h9; decide
  by_cases h10 : c = 'J'; · subst h10; decide
  by_cases h11 : c = 'K'; · subst h11; decide
  by_cases h12 : c = 'L'; · subst h12; decide
  by_cases h13 : c = 'M'; · subst h13; decide
  by_cases h14 : c = 'N'; · subst h14; decide
  by_cases h15 : c = 'O'; · subst h15; decide
  by_cases h16 : c = 'P'; · subst h16; decide
  by_cases h17 : c = 'Q'; · subst h17; decide
  by_cases h18 : c = 'R'; · subst h18; decide
  by_cases h19 : c = 'S'; · subst h19; decide
  by_cases h20 : c = 'T'; · subst h20; decide
  by_cases h21 : c = 'U'; · subst h21; decide
  by_cases h22 : c = 'V'; · subst h22; decide
  by_cases h23 : c = 'W'; · subst h23; decide
  by_cases h24 : c = 'X'; · subst h24; decide
  by_cases h25 : c = 'Y'; · subst h25; decide
  by_cases h26 : c = 'Z'; · subst h26; decide
  simp only [lowerChar, beq_iff_eq, if_neg h1, if_neg h2, if_neg h3, if_neg h4,
    if_neg h5, if_neg h6, if_neg h7, if_neg h8, if_neg h9, if_neg h10,
    if_neg h11, if_neg h12, if_neg h13, if_neg h14, if_neg h15, if_neg h16,
    if_neg h17, if_neg h18, if_neg h19, if_neg h20, if_neg h21, if_neg h22,
    if_neg h23, if_neg h24, if_neg h25, if_neg h26]

theorem isWordChar_lowerChar (c : Char) :
    isWordChar (lowerChar c) = isWordChar c := by
  by_cases h1 : c = 'A'; · subst h1; decide
  by_cases h2 : c = 'B'; · subst h2; decide
  by_cases h3 : c = 'C'; · subst h3; decide
  by_cases h4 : c = 'D'; · subst h4; decide
  by_cases h5 : c = 'E'; · subst h5; decide
  by_cases h6 : c = 'F'; · subst h6; decide
  by_cases h7 : c = 'G'; · subst h7; decide
  by_cases h8 : c = 'H'; · subst h8; decide
  by_cases h9 : c = 'I'; · subst h9; decide
  by_cases h10 : c = 'J'; · subst h10; decide
  by_cases h11 : c = 'K'; · subst h11; decide
  by_cases h12 : c = 'L'; · subst h12; decide
  by_cases h13 : c = 'M'; · subst h13; decide
  by_cases h14 : c = 'N'; · subst h14; decide
  by_cases h15 : c = 'O'; · subst h15; decide
  by_cases h16 : c = 'P'; · subst h16; decide
  by_cases h17 : c = 'Q'; · subst h17; decide
  by_cases h18 : c = 'R'; · subst h18; decide
  by_cases h19 : c = 'S'; · subst h19; decide
  by_cases h20 : c = 'T'; · subst h20; decide
  by_cases h21 : c = 'U'; · subst h21; decide
  by_cases h22 : c = 'V'; · subst h22; decide
  by_cases h23 : c = 'W'; · subst h23; decide
  by_cases h24 : c = 'X'; · subst h24; decide
  by_cases h25 : c = 'Y'; · subst h25; decide
  by_cases h26 : c = 'Z'; · subst h26; decide
  simp only [lowerChar, beq_iff_eq, if_neg h1, if_neg h2, if_neg h3, if_neg h4,
    if_neg h5, if_neg h6, if_neg h7, if_neg h8, if_neg h9, if_neg h10,
    if_neg h11, if_neg h12, if_neg h13, if_neg h14, if_neg h15, if_neg h16,
    if_neg h17, if_neg h18, if_neg h19, if_neg h20, if_neg h21, if_neg h22,
    if_neg h23, if_neg h24, if_neg h25, if_neg h26]

/-- C9: a call to `collect_bluesky_posts` whose keyword has no row in
`bluesky.keywords` returns `([], [], None)` without raising and without
issuing the remote search request, whatever the API would have answered. -/
theorem collect_unknown_keyword_noop (scanned : List String)
    (api : Option String → Except Unit SearchResponse)
    (kw : String) (cursor : Option String) :
    collect_bluesky_posts (.ok ⟨scanned, none⟩) api kw cursor =
      ⟨.ok ([], [], none), false⟩ := rfl

/-- C10: `insert_posts_to_db` with an empty batch is a complete no-op: it
returns normally and leaves the store untouched, without opening a
connection (the result does not depend on the connection outcome). -/
theorem insert_empty_noop (db : PostsDB) (connFails : Bool) (failAt : Option Nat) :
    insert_posts_to_db db [] connFails failAt = (db, false) := rfl

/-- C3 (divergence witness): the ledger reads of `collect_bluesky_posts`
sit outside the `try/except`, so a database exception propagates to the
caller instead of being converted to `([], [], None)` as the claim (and
the function's docstring) state. -/
theorem collect_db_error_propagates :
    (collect_bluesky_posts (.error ()) (fun _ => .ok ⟨[], none⟩)
      "bulgaria" none).result = .error () := rfl

/-- C7 (divergence witness): when `get_connection()` raises on a
non-empty batch, the `except` handler of `insert_posts_to_db` evaluates
`if conn:` with `conn` unbound, so an `UnboundLocalError` propagates to
the caller instead of the claimed silent `None` return. -/
theorem insert_conn_error_propagates :
    insert_posts_to_db emptyDB [samplePost] true none = (emptyDB, true) := rfl

theorem mem_insertScanned (L ids : List String) (x : String) :
    x ∈ insertScanned L ids ↔ x ∈ L ∨ x ∈ ids := by
  induction ids generalizing L with
  | nil => simp [insertScanned]
  | cons i rest ih =>
    have hstep : insertScanned L (i :: rest) =
        insertScanned (if i ∈ L then L else L ++ [i]) rest := rfl
    rw [hstep, ih]
    by_cases h : i ∈ L
    · simp only [if_pos h, List.mem_cons]
      constructor
      · rintro (hx | hx)
        · exact Or.inl hx
        · exact Or.inr (Or.inr hx)
      · rintro (hx | rfl | hx)
        · exact Or.inl hx
        · exact Or.inl h
        · exact Or.inr hx
    · simp only [if_neg h, List.mem_append, List.mem_cons, List.mem_singleton]
      tauto

/-- C8: writing scanned ids is idempotent: inserting `a` and then any
overlapping list `b` with insert-or-ignore semantics leaves the ledger
equal (as a set) to the union of the old state and all inserted ids. -/
theorem insertScanned_idempotent_union (L a b : List String) :
    (insertScanned (insertScanned L a) b).toFinset =
      L.toFinset ∪ a.toFinset ∪ b.toFinset := by
  ext x
  simp [List.mem_toFinset, mem_insertScanned, or_assoc]

theorem writeBatchAux_none (posts : List MatchedPost) :
    ∀ (db : PostsDB) (i : Nat),
      writeBatchAux db posts none i = .ok (applyBatch db posts) := by
  induction posts with
  | nil => intro db i; simp [writeBatchAux, applyBatch]
  | cons p rest ih =>
    intro db i
    simp only [writeBatchAux, applyBatch, List.foldl_cons, reduceCtorEq, if_false]
    exact ih (applyPost db p) (i + 1)

theorem writeBatchAux_ok (posts : List MatchedPost) :
    ∀ (db db' : PostsDB) (failAt : Option Nat) (i : Nat),
      writeBatchAux db posts failAt i = .ok db' → db' = applyBatch db posts := by
  induction posts with
  | nil =>
    intro db db' failAt i h
    simp only [writeBatchAux] at h
    cases h
    simp [applyBatch]
  | cons p rest ih =>
    intro db db' failAt i h
    simp only [writeBatchAux] at h
    split at h
    · cases h
    · simpa [applyBatch, List.foldl_cons] using ih (applyPost db p) db' failAt (i + 1) h

theorem insert_fst_cases (db : PostsDB) (posts : List MatchedPost)
    (cf : Bool) (fa : Option Nat) :
    (insert_posts_to_db db posts cf fa).1 = db ∨
      (insert_posts_to_db db posts cf fa).1 = applyBatch db posts := by
  unfold insert_posts_to_db
  split
  · exact Or.inl rfl
  · split
    · exact Or.inl rfl
    · rcases hw : writeBatchAux db posts fa 0 with e | db'
      · simp [hw]
      · simp only [hw]
        exact Or.inr (writeBatchAux_ok posts db db' fa 0 hw)

theorem insert_no_failure (db : PostsDB) (posts : List MatchedPost) :
    insert_posts_to_db db posts false none = (applyBatch db posts, false) := by
  unfold insert_posts_to_db
  split
  · rename_i hemp
    have : posts = [] := List.isEmpty_iff.mp hemp
    subst this
    simp [applyBatch]
  · simp [writeBatchAux_none posts db 0]

/-- C6: a batch is persisted atomically: the resulting store is either
the starting one (an exception occurred and the transaction was rolled
back: none of the batch's writes survive) or the one in which every post
and every keyword association of the batch has been applied; and when
nothing fails the full application is what is committed. -/
theorem insert_batch_atomic (db : PostsDB) (posts : List MatchedPost)
    (cf : Bool) (fa : Option Nat) :
    ((insert_posts_to_db db posts cf fa).1 = db ∨
      (insert_posts_to_db db posts cf fa).1 = applyBatch db posts) ∧
    (cf = false → fa = none →
      insert_posts_to_db db posts cf fa = (applyBatch db posts, false)) := by
  refine ⟨insert_fst_cases db posts cf fa, ?_⟩
  rintro rfl rfl
  exact insert_no_failure db posts

/-- Witness for C6: a concrete one-post batch with no failure commits the
full application. -/
theorem insert_batch_atomic_witness :
    insert_posts_to_db emptyDB [samplePost] false none =
      (applyBatch emptyDB [samplePost], false) :=
  (insert_batch_atomic emptyDB [samplePost] false none).2 rfl rfl

theorem processPage_invariants (kw : String) (kwId : Nat) (lang : String)
    (posts : List PostView) :
    ∀ (seen : List String),
      ((processPage kw kwId lang seen posts).2).Nodup ∧
      (∀ x ∈ (processPage kw kwId lang seen posts).2, x ∉ seen) ∧
      (∀ p ∈ (processPage kw kwId lang seen posts).1,
        p.external_id ∈ (processPage kw kwId lang seen posts).2) := by
  induction posts with
  | nil => intro seen; simp [processPage]
  | cons v rest ih =>
    intro seen
    by_cases h : v.uri ∈ seen
    · simpa [processPage, h] using ih seen
    · obtain ⟨ihN, ihS, ihM⟩ := ih (v.uri :: seen)
      by_cases hm : matchesKeyword (v.text.getD "") kw
      · simp only [processPage, if_neg h, if_pos hm]
        refine ⟨?_, ?_, ?_⟩
        · exact List.nodup_cons.mpr
            ⟨fun hmem => (ihS _ hmem) (List.mem_cons_self _ _), ihN⟩
        · intro x hx
          rcases List.mem_cons.mp hx with rfl | hx
          · exact h
          · exact fun hxs => (ihS x hx) (List.mem_cons_of_mem _ hxs)
        · intro p hp
          rcases List.mem_cons.mp hp with rfl | hp
          · exact List.mem_cons_self _ _
          · exact List.mem_cons_of_mem _ (ihM p hp)
      · simp only [processPage, if_neg h, if_neg hm]
        refine ⟨?_, ?_, ?_⟩
        · exact List.nodup_cons.mpr
            ⟨fun hmem => (ihS _ hmem) (List.mem_cons_self _ _), ihN⟩
        · intro x hx
          rcases List.mem_cons.mp hx with rfl | hx
          · exact h
          · exact fun hxs => (ihS x hx) (List.mem_cons_of_mem _ hxs)
        · exact fun p hp => List.mem_cons_of_mem _ (ihM p hp)

/-- C1: whenever `collect_bluesky_posts` returns
`(matchedPosts, scannedIds, nextCursor)`, the scanned ids contain no
duplicates and none of them was in the ledger loaded at call start, and
every matched post's `external_id` is among the scanned ids. -/
theorem collect_scanned_invariants (lv : LedgerView)
    (api : Option String → Except Unit SearchResponse) (kw : String)
    (cursor : Option String) (m : List MatchedPost) (s : List String)
    (c : Option String)
    (h : (collect_bluesky_posts (.ok lv) api kw cursor).result = .ok (m, s, c)) :
    s.Nodup ∧ (∀ x ∈ s, x ∉ lv.scanned) ∧ (∀ p ∈ m, p.external_id ∈ s) := by
  obtain ⟨scanned, kwRow⟩ := lv
  cases kwRow with
  | none =>
    simp only [collect_bluesky_posts, Except.ok.injEq, Prod.mk.injEq] at h
    obtain ⟨rfl, rfl, rfl⟩ := h
    simp
  | some kv =>
    obtain ⟨kwId, lang⟩ := kv
    cases ha : api cursor with
    | error e =>
      simp only [collect_bluesky_posts, ha, Except.ok.injEq, Prod.mk.injEq] at h
      obtain ⟨rfl, rfl, rfl⟩ := h
      simp
    | ok res =>
      simp only [collect_bluesky_posts, ha, Except.ok.injEq, Prod.mk.injEq] at h
      obtain ⟨rfl, rfl, rfl⟩ := h
      exact processPage_invariants kw kwId lang res.posts scanned

/-- Witness for C1: a concrete page containing one new matching post and
one id already in the ledger. -/
theorem collect_scanned_invariants_witness :
    (collect_bluesky_posts (.ok ⟨["at://old"], some (1, "en")⟩) sampleApi
        "art" none).result = .ok ([samplePost], ["at://p1"], some "cur2") ∧
      List.Nodup ["at://p1"] :=
  ⟨by decide,
   (collect_scanned_invariants ⟨["at://old"], some (1, "en")⟩ sampleApi "art"
     none [samplePost] ["at://p1"] (some "cur2") (by decide)).1⟩

theorem insert_snd (db : PostsDB) (ps : List MatchedPost) (cf : Bool)
    (fa : Option Nat) :
    (insert_posts_to_db db ps cf fa).2 = (!ps.isEmpty && cf) := by
  unfold insert_posts_to_db
  split
  · rename_i hemp; simp [hemp]
  · rename_i hemp
    rw [Bool.not_eq_true] at hemp
    split
    · rename_i hcf; simp [hemp, hcf]
    · rename_i hcf
      rw [Bool.not_eq_true] at hcf
      rcases hw : writeBatchAux db ps fa 0 with e | db' <;> simp [hemp, hcf]

theorem runPages_count_le (oracle : Nat → PageOutcome) :
    ∀ (fuel page : Nat) (st : OrchState), (runPages oracle page fuel st).2 ≤ fuel := by
  intro fuel
  induction fuel with
  | zero => intro page st; simp [runPages]
  | succ f ih =>
    intro page st
    rcases hps : pageStep st (oracle page) with ⟨st', cont⟩
    cases cont with
    | none => simp [runPages, hps]
    | some next =>
      cases next with
      | none => simp [runPages, hps]
      | some cstr =>
        have := ih (page + 1) st'
        simp only [runPages, hps]
        omega

theorem pageStep_continue (st : OrchState) (o : PageOutcome)
    (h : continuesTo o = true) :
    ∃ c, (pageStep st o).2 = some (some c) := by
  cases o with
  | fetchFail => simp [continuesTo] at h
  | scanFail d => simp [continuesTo] at h
  | ok d =>
    simp only [continuesTo, Bool.and_eq_true, Bool.or_eq_true] at h
    obtain ⟨hn, hrest⟩ := h
    obtain ⟨c, hc⟩ := Option.isSome_iff_exists.mp hn
    by_cases hm : d.matched.isEmpty
    · exact ⟨c, by simp [pageStep, hm, hc]⟩
    · have hcf : d.dbConnFails = false := by
        rcases hrest with h1 | h1
        · exact absurd h1 hm
        · simpa using h1
      have h2 : (insert_posts_to_db st.postsDB d.matched d.dbConnFails d.dbFailAt).2 = false := by
        rw [insert_snd, hcf]
        simp
      exact ⟨c, by simp [pageStep, hm, h2, hc]⟩

theorem pageStep_stop (st : OrchState) (o : PageOutcome)
    (h : continuesTo o = false) :
    (pageStep st o).2 = none ∨ (pageStep st o).2 = some none := by
  cases o with
  | fetchFail => exact Or.inl rfl
  | scanFail d => exact Or.inl rfl
  | ok d =>
    by_cases hm : d.matched.isEmpty
    · have hn : d.next = none := by
        simp only [continuesTo, hm, Bool.true_or, Bool.and_true] at h
        exact Option.not_isSome_iff_eq_none.mp (by simp [h])
      exact Or.inr (by simp [pageStep, hm, hn])
    · by_cases hcf : d.dbConnFails
      · have h2 : (insert_posts_to_db st.postsDB d.matched d.dbConnFails d.dbFailAt).2 = true := by
          rw [insert_snd, hcf]
          simp [Bool.not_eq_true] at hm ⊢
          exact hm
        exact Or.inl (by simp [pageStep, hm, h2])
      · have hn : d.next = none := by
          rw [Bool.not_eq_true] at hcf
          simp only [continuesTo, hm, hcf, Bool.not_false, Bool.or_true,
            Bool.and_true, Bool.false_or] at h
          exact Option.not_isSome_iff_eq_none.mp (by simp [h])
        have h2 : (insert_posts_to_db st.postsDB d.matched d.dbConnFails d.dbFailAt).2 = false := by
          rw [Bool.not_eq_true] at hcf
          rw [insert_snd, hcf]
          simp
        exact Or.inr (by simp [pageStep, hm, h2, hn])

theorem runPages_stop (oracle : Nat → PageOutcome) :
    ∀ (k f page : Nat) (st : OrchState), k < f →
      (∀ j, j < k → continuesTo (oracle (page + j)) = true) →
      continuesTo (oracle (page + k)) = false →
      (runPages oracle page f st).2 = k + 1 := by
  intro k
  induction k with
  | zero =>
    intro f page st hf _ hstop
    obtain ⟨f', rfl⟩ : ∃ f', f = f' + 1 := ⟨f - 1, by omega⟩
    rw [Nat.add_zero] at hstop
    rcases hps : pageStep st (oracle page) with ⟨st', cont⟩
    rcases pageStep_stop st (oracle page) hstop with h | h <;> rw [hps] at h <;>
      subst h <;> simp [runPages, hps]
  | succ k ih =>
    intro f page st hf hcont hstop
    obtain ⟨f', rfl⟩ : ∃ f', f = f' + 1 := ⟨f - 1, by omega⟩
    have h0 : continuesTo (oracle page) = true := by
      have := hcont 0 (Nat.succ_pos k)
      rwa [Nat.add_zero] at this
    rcases hps : pageStep st (oracle page) with ⟨st', cont⟩
    obtain ⟨c, hsnd⟩ := pageStep_continue st (oracle page) h0
    rw [hps] at hsnd
    simp only at hsnd
    subst hsnd
    have hrec : (runPages oracle (page + 1) f' st').2 = k + 1 := by
      apply ih f' (page + 1) st' (by omega)
      · intro j hj
        have hj' := hcont (j + 1) (by omega)
        have e : page + (j + 1) = page + 1 + j := by omega
        rwa [e] at hj'
      · have e : page + (k + 1) = page + 1 + k := by omega
        rwa [e] at hstop
    simp [runPages, hps, hrec]

/-- C5: for one keyword the orchestrator invokes the fetch cycle at most
10 times; and as soon as a fetch cycle comes back with no cursor after
page `k`, the loop stops there — exactly `k + 1` fetches, page `k + 1` is
never requested. -/
theorem orchestrator_page_bounds :
    (∀ (oracle : Nat → PageOutcome) (st : OrchState),
      (runPages oracle 0 10 st).2 ≤ 10) ∧
    (∀ (oracle : Nat → PageOutcome) (st : OrchState) (k : Nat) (d : PageData),
      k < 10 → (∀ j, j < k → continuesTo (oracle j) = true) →
      oracle k = .ok d → d.next = none →
      (runPages oracle 0 10 st).2 = k + 1) := by
  constructor
  · intro oracle st
    exact runPages_count_le oracle 10 0 st
  · intro oracle st k d hk hcont hok hnone
    apply runPages_stop oracle k 10 0 st hk
    · intro j hj
      rw [Nat.zero_add]
      exact hcont j hj
    · rw [Nat.zero_add, hok]
      simp [continuesTo, hnone]

/-- Witness for C5: the cursor disappears after the third page, so the
loop performs exactly 3 fetches. -/
theorem orchestrator_page_bounds_witness :
    (runPages cursorOracle 0 10 emptyState).2 ≤ 10 ∧
    (runPages cursorOracle 0 10 emptyState).2 = 3 :=
  ⟨orchestrator_page_bounds.1 cursorOracle emptyState,
   orchestrator_page_bounds.2 cursorOracle emptyState 2 ⟨[], [], none, false, none⟩
     (by decide) (fun j hj => by interval_cases j <;> decide) rfl rfl⟩

theorem storedIds_applyPost (db : PostsDB) (p : MatchedPost) (x : String)
    (hx : x ∈ storedIds db) : x ∈ storedIds (applyPost db p) := by
  unfold applyPost
  cases hf : findRow db.rows p.external_id with
  | none =>
    simp only [storedIds, List.map_append, List.mem_append]
    exact Or.inl hx
  | some pr =>
    obtain ⟨pid, sp⟩ := pr
    simp only [storedIds, List.map_map, List.mem_map] at hx ⊢
    obtain ⟨r, hr, hrx⟩ := hx
    refine ⟨r, hr, ?_⟩
    simp only [Function.comp]
    by_cases he : r.2.external_id == p.external_id
    · rw [if_pos he]
      rw [← hrx]
      exact (beq_iff_eq.mp he).symm
    · rw [if_neg he]
      exact hrx

theorem storedIds_applyPost_self (db : PostsDB) (p : MatchedPost) :
    p.external_id ∈ storedIds (applyPost db p) := by
  unfold applyPost
  cases hf : findRow db.rows p.external_id with
  | none =>
    simp only [storedIds, List.map_append, List.mem_append]
    right
    simp [toStored]
  | some pr =>
    obtain ⟨pid, sp⟩ := pr
    unfold findRow at hf
    have hmem := List.mem_of_find?_eq_some hf
    have hpred := List.find?_some hf
    simp only at hpred
    simp only [storedIds, List.map_map, List.mem_map]
    refine ⟨(pid, sp), hmem, ?_⟩
    simp only [Function.comp]
    rw [if_pos hpred]
    rfl

theorem storedIds_applyBatch_mono (posts : List MatchedPost) :
    ∀ (db : PostsDB) (x : String),
      x ∈ storedIds db → x ∈ storedIds (applyBatch db posts) := by
  induction posts with
  | nil => intro db x hx; simpa [applyBatch] using hx
  | cons p rest ih =>
    intro db x hx
    show x ∈ storedIds (applyBatch (applyPost db p) rest)
    exact ih (applyPost db p) x (storedIds_applyPost db p x hx)

theorem storedIds_applyBatch_mem (posts : List MatchedPost) :
    ∀ (db : PostsDB) (p : MatchedPost),
      p ∈ posts → p.external_id ∈ storedIds (applyBatch db posts) := by
  induction posts with
  | nil => intro db p hp; cases hp
  | cons q rest ih =>
    intro db p hp
    rcases List.mem_cons.mp hp with rfl | hp
    · show p.external_id ∈ storedIds (applyBatch (applyPost db p) rest)
      exact storedIds_applyBatch_mono rest (applyPost db p) _
        (storedIds_applyPost_self db p)
    · exact ih (applyPost db q) p hp

theorem storedIds_insert_mono (db : PostsDB) (ps : List MatchedPost)
    (cf : Bool) (fa : Option Nat) (x : String) (hx : x ∈ storedIds db) :
    x ∈ storedIds (insert_posts_to_db db ps cf fa).1 := by
  rcases insert_fst_cases db ps cf fa with h | h <;> rw [h]
  · exact hx
  · exact storedIds_applyBatch_mono ps db x hx

theorem storedIds_pageStep_mono (st : OrchState) (o : PageOutcome) (x : String)
    (hx : x ∈ storedIds st.postsDB) : x ∈ storedIds (pageStep st o).1.postsDB := by
  cases o with
  | fetchFail => exact hx
  | scanFail d => exact hx
  | ok d =>
    have hins := storedIds_insert_mono st.postsDB d.matched d.dbConnFails d.dbFailAt x hx
    by_cases hm : d.matched.isEmpty
    · simpa [pageStep, hm] using hx
    · simp only [pageStep, if_neg hm]
      split <;> exact hins

theorem storedIds_runPages_mono (oracle : Nat → PageOutcome) :
    ∀ (fuel page : Nat) (st : OrchState) (x : String),
      x ∈ storedIds st.postsDB →
      x ∈ storedIds (runPages oracle page fuel st).1.postsDB := by
  intro fuel
  induction fuel with
  | zero => intro page st x hx; simpa [runPages] using hx
  | succ f ih =>
    intro page st x hx
    have hstep := storedIds_pageStep_mono st (oracle page) x hx
    rcases hps : pageStep st (oracle page) with ⟨st', cont⟩
    rw [hps] at hstep
    cases cont with
    | none => simpa [runPages, hps] using hstep
    | some next =>
      cases next with
      | none => simpa [runPages, hps] using hstep
      | some c => simpa [runPages, hps] using ih (page + 1) st' x hstep

theorem storedIds_runMain_mono (oracle : String → Nat → PageOutcome) :
    ∀ (kws : List String) (st : OrchState) (x : String),
      x ∈ storedIds st.postsDB →
      x ∈ storedIds (runMain oracle kws st).postsDB := by
  intro kws
  induction kws with
  | nil => intro st x hx; exact hx
  | cons kw rest ih =>
    intro st x hx
    show x ∈ storedIds (runMain oracle rest ((runPages (oracle kw) 0 10 st).1)).postsDB
    exact ih _ x (storedIds_runPages_mono (oracle kw) 10 0 st x hx)

theorem runPages_persists (oracle : Nat → PageOutcome) :
    ∀ (k f page : Nat) (st : OrchState) (d : PageData) (P : MatchedPost),
      k < f →
      (∀ j, j ≤ k → continuesTo (oracle (page + j)) = true) →
      oracle (page + k) = .ok d → d.dbFailAt = none → P ∈ d.matched →
      P.external_id ∈ storedIds (runPages oracle page f st).1.postsDB := by
  intro k
  induction k with
  | zero =>
    intro f page st d P hf hcont hok hfa hP
    obtain ⟨f', rfl⟩ : ∃ f', f = f' + 1 := ⟨f - 1, by omega⟩
    have h0 : continuesTo (oracle page) = true := by
      simpa using hcont 0 (Nat.le_refl 0)
    rw [Nat.add_zero] at hok
    rw [hok] at h0
    simp only [continuesTo, Bool.and_eq_true, Bool.or_eq_true] at h0
    have hm : d.matched.isEmpty = false := by
      cases hmm : d.matched
      · rw [hmm] at hP; cases hP
      · simp [hmm]
    have hcf : d.dbConnFails = false := by
      rcases h0.2 with h1 | h1
      · rw [hm] at h1; cases h1
      · simpa using h1
    obtain ⟨c, hc⟩ := Option.isSome_iff_exists.mp h0.1
    have happly : insert_posts_to_db st.postsDB d.matched d.dbConnFails d.dbFailAt
        = (applyBatch st.postsDB d.matched, false) := by
      rw [hcf, hfa]
      exact insert_no_failure st.postsDB d.matched
    have hmem : P.external_id ∈ storedIds (applyBatch st.postsDB d.matched) :=
      storedIds_applyBatch_mem d.matched st.postsDB P hP
    have hps2 : pageStep st (oracle page) =
        (⟨applyBatch st.postsDB d.matched,
          if d.scanned.isEmpty then st.ledger
          else insertScanned st.ledger d.scanned⟩, some (some c)) := by
      rw [hok]
      simp [pageStep, hm, happly, hc]
    simp only [runPages, hps2]
    exact storedIds_runPages_mono oracle f' (page + 1) _ _ hmem
  | succ k ih =>
    intro f page st d P hf hcont hok hfa hP
    obtain ⟨f', rfl⟩ : ∃ f', f = f' + 1 := ⟨f - 1, by omega⟩
    have h0 : continuesTo (oracle page) = true := by
      simpa using hcont 0 (by omega)
    rcases hps : pageStep st (oracle page) with ⟨st', cont⟩
    obtain ⟨c, hsnd⟩ := pageStep_continue st (oracle page) h0
    rw [hps] at hsnd
    simp only at hsnd
    subst hsnd
    have hrec := ih f' (page + 1) st' d P (by omega)
      (fun j hj => by
        have hj' := hcont (j + 1) (by omega)
        have e : page + (j + 1) = page + 1 + j := by omega
        rwa [e] at hj')
      (by
        have e : page + (k + 1) = page + 1 + k := by omega
        rwa [e] at hok)
      hfa hP
    simpa [runPages, hps] using hrec

theorem breaksAt_not_continues (o : PageOutcome) (h : breaksAt o = true) :
    continuesTo o = false := by
  cases o with
  | fetchFail => rfl
  | scanFail d => rfl
  | ok d =>
    simp only [breaksAt, Bool.and_eq_true, Bool.not_eq_true'] at h
    simp [continuesTo, h.1, h.2]

/-- C4: if an exception surfaces while processing page `p` of keyword
`kw` (pages before it having completed with a cursor), then `kw`'s page
loop stops right there (exactly `p + 1` fetches), the orchestrator
continues with the remaining keywords, and every post persisted by `kw`'s
earlier pages is still stored at the end of the whole run. -/
theorem orchestrator_failure_isolation (oracle : String → Nat → PageOutcome)
    (kw : String) (rest : List String) (st : OrchState) (p : Nat)
    (hp : p < 10)
    (hcont : ∀ j, j < p → continuesTo (oracle kw j) = true)
    (hfail : breaksAt (oracle kw p) = true) :
    (runPages (oracle kw) 0 10 st).2 = p + 1 ∧
    runMain oracle (kw :: rest) st =
      runMain oracle rest ((runPages (oracle kw) 0 10 st).1) ∧
    (∀ j d P, j < p → oracle kw j = .ok d → d.dbFailAt = none →
      P ∈ d.matched →
      P.external_id ∈ storedIds (runMain oracle (kw :: rest) st).postsDB) := by
  refine ⟨?_, rfl, ?_⟩
  · apply runPages_stop (oracle kw) p 10 0 st hp
    · intro j hj
      rw [Nat.zero_add]
      exact hcont j hj
    · rw [Nat.zero_add]
      exact breaksAt_not_continues _ hfail
  · intro j d P hj hok hfa hP
    have hin : P.external_id ∈ storedIds (runPages (oracle kw) 0 10 st).1.postsDB := by
      apply runPages_persists (oracle kw) j 10 0 st d P (by omega)
      · intro j' hj'
        rw [Nat.zero_add]
        exact hcont j' (by omega)
      · rw [Nat.zero_add]
        exact hok
      · exact hfa
      · exact hP
    show P.external_id ∈
      storedIds (runMain oracle rest ((runPages (oracle kw) 0 10 st).1)).postsDB
    exact storedIds_runMain_mono oracle rest _ _ hin

/-- Witness for C4: keyword "bulgaria" fails on its second page; its
first page performed one fetch plus the failing one, and the post matched
on page one is still stored after the full run over both keywords. -/
theorem orchestrator_failure_isolation_witness :
    (runPages (failureOracle "bulgaria") 0 10 emptyState).2 = 2 ∧
    samplePost.external_id ∈
      storedIds (runMain failureOracle ["bulgaria", "sofia"] emptyState).postsDB := by
  have h := orchestrator_failure_isolation failureOracle "bulgaria" ["sofia"]
    emptyState 1 (by decide)
    (fun j hj => by interval_cases j; decide)
    (by decide)
  exact ⟨h.1, h.2.2 0 samplePage samplePost (by decide) rfl rfl (by decide)⟩

theorem map_lower_idem (l : List Char) :
    (l.map lowerChar).map lowerChar = l.map lowerChar := by
  rw [List.map_map]
  exact List.map_congr_left (fun a _ => lowerChar_idem a)

theorem lastW_map_lower (l : List Char) : lastW (l.map lowerChar) = lastW l := by
  unfold lastW
  rw [List.getLast?_map]
  cases h : l.getLast? <;> simp [isWordChar_lowerChar]

theorem headW_map_lower (l : List Char) : headW (l.map lowerChar) = headW l := by
  unfold headW
  rw [List.head?_map]
  cases h : l.head? <;> simp [isWordChar_lowerChar]

theorem bdry_map_lower (t : List Char) (i : Nat) :
    bdry (t.map lowerChar) i = bdry t i := by
  unfold bdry
  rw [← List.map_take, ← List.map_drop, lastW_map_lower, headW_map_lower]

/-- C2: the pattern matcher is exactly whole-word, case-insensitive
literal matching: it succeeds iff the keyword occurs in the text up to
letter case with a word boundary on each side; in particular "art" does
not match inside "party" but does match the standalone word. -/
theorem matcher_whole_word_ci :
    (∀ text kw : String, matchesKeyword text kw = true ↔ specMatches text kw) ∧
    matchesKeyword "the party was great" "art" = false ∧
    matchesKeyword "modern art is great" "art" = true := by
  refine ⟨?_, by decide, by decide⟩
  intro text kw
  constructor
  · intro h
    unfold matchesKeyword reSearch at h
    rw [List.any_eq_true] at h
    obtain ⟨i, hir, hw⟩ := h
    rw [List.mem_range] at hir
    unfold wwMatchAt at hw
    simp only [Bool.and_eq_true, decide_eq_true_eq, beq_iff_eq] at hw
    obtain ⟨⟨⟨hlen, hocc⟩, hb1⟩, hb2⟩ := hw
    rw [List.length_map] at hlen
    rw [bdry_map_lower] at hb1 hb2
    rw [← List.map_drop, ← List.map_take, map_lower_idem] at hocc
    have hmp : (text.data.drop i).take kw.data.length ++
        text.data.drop (i + kw.data.length) = text.data.drop i := by
      rw [← List.drop_drop, List.take_append_drop]
    refine ⟨text.data.take i, (text.data.drop i).take kw.data.length,
      text.data.drop (i + kw.data.length), ?_, hocc, ?_, ?_⟩
    · rw [List.append_assoc, hmp, List.take_append_drop]
    · unfold bdry at hb1
      rw [bne_iff_ne] at hb1
      rw [hmp]
      exact hb1
    · unfold bdry at hb2
      rw [bne_iff_ne] at hb2
      have hpm : text.data.take i ++ (text.data.drop i).take kw.data.length =
          text.data.take (i + kw.data.length) := (List.take_add _ _ _).symm
      rw [hpm]
      exact hb2
  · rintro ⟨pre, mid, post, hT, hmid, hb1, hb2⟩
    unfold matchesKeyword reSearch
    rw [List.any_eq_true]
    have hmlen : mid.length = kw.data.length := by
      have hl := congrArg List.length hmid
      simpa [List.length_map] using hl
    refine ⟨pre.length, ?_, ?_⟩
    · rw [List.mem_range, List.length_map, hT]
      simp only [List.length_append]
      omega
    · unfold wwMatchAt
      have htmap : text.data.map lowerChar =
          pre.map lowerChar ++ mid.map lowerChar ++ post.map lowerChar := by
        rw [hT, List.map_append, List.map_append]
      simp only [Bool.and_eq_true, decide_eq_true_eq, beq_iff_eq]
      refine ⟨⟨⟨?_, ?_⟩, ?_⟩, ?_⟩
      · rw [List.length_map, hT]
        simp only [List.length_append]
        omega
      · rw [htmap, List.append_assoc, List.drop_left' (by simp),
          List.take_left' (by simp [hmlen]), map_lower_idem, hmid]
      · rw [bdry_map_lower]
        unfold bdry
        rw [bne_iff_ne, hT, List.append_assoc, List.take_left, List.drop_left]
        exact hb1
      · rw [bdry_map_lower]
        unfold bdry
        rw [bne_iff_ne, hT]
        have e : pre.length + kw.data.length = (pre ++ mid).length := by
          rw [List.length_append, hmlen]
        rw [e, List.take_left, List.drop_left]
        exact hb2

end ContentMonitoring
